import Mathlib

/-!
# Elevator simulation: dispatch, motion, breakdown, repair and fire override

A shallow embedding of `src/elevator_sim.c`.

Modelling conventions.

* C `int` values are integers (`Int`).  The one `int` expression that can leave
  the range of `int` while every floor is a floor of the building is
  `num_floors + 1` in `find_nearest_idle_elevator`; its value is reduced to the
  32-bit range by `int_wrap`, as the compiled addition does.  Every other
  quantity is bounded by `num_floors`, `num_requests` or the constant 50.
* The flags `idle`, `broken`, `fire_mode`, `repair_requested` are C `int`s that
  are only ever assigned 0 or 1; they are `Bool` here.
* The global array `elevators[MAX_ELEVATORS]` is a `List Elevator`; the state
  built by `main` has exactly `MAX_ELEVATORS` entries.
* The global array `request_queue[MAX_REQUESTS]` together with `queue_size` is
  the list of the live cells `request_queue[0 .. queue_size-1]`, so that
  `queue_size` is the length of the list.  Cells at or beyond `queue_size` are
  never read by the program.  The store `request_queue[queue_size++] = r`
  appends a cell; the program performs it without comparing `queue_size` with
  `MAX_REQUESTS`.  A store at an index of `MAX_REQUESTS` or more lands outside
  the array, on whatever the build has placed behind it: the model records it
  in the flag `out_of_bounds` and goes on as if the array were long enough.
  Once the flag is set the state of the model is no longer a description of the
  memory of the program.
* `rand()` is an external source of non-negative integers: every call site
  receives its value as an argument of type `Nat`.
* The signal handlers `breakdown` and `fire_response` are taken to run between
  two iterations of the simulation loop.
* Rendering (`draw_elevators`, `mvprintw`), MQTT publishing and the sleeps have
  no effect on the simulated state and are left out, as are the local counters
  `idle_count` and `broken_count`, which are only passed to the renderer.
-/

set_option autoImplicit false

namespace ElevatorSim

/-! ## Data model -/

/-- `#define MAX_ELEVATORS 3`. -/
def MAX_ELEVATORS : Nat := 3

/-- `#define MAX_REQUESTS 100`. -/
def MAX_REQUESTS : Nat := 100

/-- `typedef struct { ... } Elevator;`. -/
structure Elevator where
  current_floor : Int
  target_floor : Int
  idle : Bool
  broken : Bool
  repair_intervals : Int
deriving DecidableEq, Repr, Inhabited

/-- `typedef struct { ... } Request;`. -/
structure Request where
  start_floor : Int
  target_floor : Int
deriving DecidableEq, Repr, Inhabited

/-- The global variables of the simulation.  `queue_size` is the length of
`request_queue`; `simulation_running` is set to 1 and never written again, so
it is not represented.  `out_of_bounds` is not a variable of the program: it
records that a store outside the 100 cells of `request_queue` has been
executed. -/
structure State where
  num_floors : Int
  num_requests : Int
  interval : Int
  elevators : List Elevator
  request_queue : List Request
  active_requests : Int
  fire_mode : Bool
  repair_requested : Bool
  repair_time : Int
  out_of_bounds : Bool
deriving DecidableEq, Repr

/-- The value of `queue_size`. -/
def State.queue_size (s : State) : Nat := s.request_queue.length

/-- The three values of `rand()` consumed by the arrival step of one loop
iteration: the arrival test, the start floor and the target floor. -/
structure Draws where
  arrive : Nat
  start : Nat
  target : Nat
deriving DecidableEq, Repr

/-! ## Motion -/

/-- `void move_elevator(Elevator* elevator)`. -/
def move_elevator (e : Elevator) : Elevator :=
  if e.broken || e.idle then e
  else if e.current_floor < e.target_floor then
    { e with current_floor := e.current_floor + 1 }
  else if e.current_floor > e.target_floor then
    { e with current_floor := e.current_floor - 1 }
  else
    { e with idle := true }

/-- The motion loop of `main`:
`if (!elevators[i].idle && !elevators[i].broken) move_elevator(&elevators[i]);`
for every `i`. -/
def move_all (es : List Elevator) : List Elevator :=
  es.map (fun e => if !e.idle && !e.broken then move_elevator e else e)

/-! ## Nearest idle elevator -/

/-- The `for` loop of `find_nearest_idle_elevator`, entered at index `i` with
the current values of `nearest` and `nearest_distance`; the list holds
`elevators[i ..]`. -/
def find_nearest_loop (request_floor : Int) :
    List Elevator → Nat → Int → Int → Int
  | [], _, nearest, _ => nearest
  | e :: rest, i, nearest, nearest_distance =>
    if e.idle && !e.broken then
      let distance : Int := ((e.current_floor - request_floor).natAbs : Int)
      if distance < nearest_distance then
        find_nearest_loop request_floor rest (i + 1) (i : Int) distance
      else
        find_nearest_loop request_floor rest (i + 1) nearest nearest_distance
    else
      find_nearest_loop request_floor rest (i + 1) nearest nearest_distance

/-- The largest value of a C `int`. -/
def INT_MAX : Int := 2147483647

/-- The value of an `int` addition whose exact result is `x`: `x` reduced to the
range `[-2147483648, 2147483647]` modulo `2^32`. -/
def int_wrap (x : Int) : Int :=
  (x + 2147483648) % 4294967296 - 2147483648

/-- `int find_nearest_idle_elevator(int request_floor)`.  The initial value of
`nearest_distance` is the `int` sum `num_floors + 1`. -/
def find_nearest_idle_elevator (num_floors : Int) (elevators : List Elevator)
    (request_floor : Int) : Int :=
  find_nearest_loop request_floor elevators 0 (-1) (int_wrap (num_floors + 1))

/-! ## Breakdown, fire and repair -/

/-- The `do ... while` loop of `breakdown`, unrolled for `MAX_ELEVATORS = 3`:
a further draw is made only while the drawn elevator is broken and fewer than
three attempts were made. -/
def breakdown_select (es : List Elevator) (r1 r2 r3 : Nat) : Nat :=
  let id1 := r1 % MAX_ELEVATORS
  if (es.getD id1 default).broken then
    let id2 := r2 % MAX_ELEVATORS
    if (es.getD id2 default).broken then
      r3 % MAX_ELEVATORS
    else id2
  else id1

/-- `void breakdown(int sig)`: `r1 r2 r3` are the draws for the elevator index,
`rr` the draw for the repair time. -/
def breakdown (s : State) (r1 r2 r3 rr : Nat) : State :=
  let elevator_id := breakdown_select s.elevators r1 r2 r3
  let e := s.elevators.getD elevator_id default
  if e.broken then s
  else
    let repair : Int := ((rr % 41 : Nat) : Int) + 10
    { s with
      elevators := s.elevators.set elevator_id
        { e with broken := true, repair_intervals := repair }
      repair_requested := true
      repair_time := repair }

/-- `void fire_response(int sig)`. -/
def fire_response (s : State) : State :=
  { s with
    fire_mode := true
    elevators := s.elevators.map
      (fun e => { e with target_floor := 0, idle := false, broken := false }) }

/-- The `for` loop of `handle_repair` over the remaining elevators, threading
the globals `repair_requested` and `repair_time`. -/
def handle_repair_loop : List Elevator → Bool → Int → List Elevator × Bool × Int
  | [], rq, rt => ([], rq, rt)
  | e :: rest, rq, rt =>
    if e.broken then
      let ri := e.repair_intervals - 1
      if ri ≤ 0 then
        let out := handle_repair_loop rest false rt
        ({ e with repair_intervals := ri, broken := false } :: out.1, out.2)
      else
        let out := handle_repair_loop rest rq ri
        ({ e with repair_intervals := ri } :: out.1, out.2)
    else
      let out := handle_repair_loop rest rq rt
      (e :: out.1, out.2)

/-- `void handle_repair()`. -/
def handle_repair (s : State) : State :=
  let out := handle_repair_loop s.elevators s.repair_requested s.repair_time
  { s with elevators := out.1, repair_requested := out.2.1, repair_time := out.2.2 }

/-- `int all_elevators_at_ground()`. -/
def all_elevators_at_ground : List Elevator → Bool
  | [] => true
  | e :: rest =>
    if e.current_floor != 0 && !e.broken then false
    else all_elevators_at_ground rest

/-! ## One iteration of the simulation loop -/

/-- The arrival block of the loop body.  `%` is the truncating remainder of C
(`Int.tmod`).  With `interval = 0` or `num_floors = 0` the C program divides by
zero and stops; the remainder has a value in the model there, so the model has
at least the states of the program.  The store `request_queue[queue_size++]`
is made whatever `queue_size` is; when `queue_size` is `MAX_REQUESTS` or more
it is a store outside the array and `out_of_bounds` is set. -/
def arrival (s : State) (d : Draws) : State :=
  if s.fire_mode = false ∧ s.active_requests < s.num_requests
      ∧ Int.tmod (d.arrive : Int) s.interval = 0 then
    { s with
      request_queue := s.request_queue ++
        [{ start_floor := Int.tmod (d.start : Int) s.num_floors
           target_floor := Int.tmod (d.target : Int) s.num_floors }]
      active_requests := s.active_requests + 1
      out_of_bounds := s.out_of_bounds || decide (MAX_REQUESTS ≤ s.request_queue.length) }
  else s

/-- The inner loop `for (j = i; j < queue_size - 1; j++) q[j] = q[j + 1];`,
entered at index `j` with the given number of iterations left. -/
def shift_loop : Nat → List Request → Nat → List Request
  | 0, q, _ => q
  | n + 1, q, j => shift_loop n (q.set j (q.getD (j + 1) default)) (j + 1)

/-- Removal of `request_queue[i]`: the shift loop, which runs
`queue_size - 1 - i` times, followed by `queue_size--`. -/
def remove_at (q : List Request) (i : Nat) : List Request :=
  (shift_loop (q.length - 1 - i) q i).dropLast

/-- The two stores of a successful match on `elevators[k]`. -/
def assign (es : List Elevator) (k : Nat) (target : Int) : List Elevator :=
  es.set k { es.getD k default with target_floor := target, idle := false }

/-- The dispatch loop `for (i = 0; i < queue_size; i++) { ... }` entered at
index `i`.  Every iteration lowers `queue_size - i` by one (a match removes a
cell and keeps `i`, otherwise `i` grows), so the first argument bounds the
number of iterations left. -/
def dispatch_loop (num_floors : Int) :
    Nat → List Elevator → List Request → Nat → List Elevator × List Request
  | 0, es, q, _ => (es, q)
  | fuel + 1, es, q, i =>
    if i < q.length then
      let r := q.getD i default
      let nearest_elevator := find_nearest_idle_elevator num_floors es r.start_floor
      if nearest_elevator ≠ -1 then
        dispatch_loop num_floors fuel
          (assign es nearest_elevator.toNat r.target_floor) (remove_at q i) i
      else
        dispatch_loop num_floors fuel es q (i + 1)
    else (es, q)

/-- The dispatch block of the loop body, guarded by `if (!fire_mode)`. -/
def dispatch (s : State) : State :=
  if s.fire_mode then s
  else
    let out := dispatch_loop s.num_floors s.request_queue.length
      s.elevators s.request_queue 0
    { s with elevators := out.1, request_queue := out.2 }

/-- The motion block of the loop body. -/
def move_phase (s : State) : State :=
  { s with elevators := move_all s.elevators }

/-- The repair block of the loop body: skipped in fire mode, and
`handle_repair` is called only when some elevator is broken. -/
def repair_phase (s : State) : State :=
  if s.fire_mode then s
  else if s.elevators.any (fun e => e.broken) then handle_repair s
  else s

/-- The body of the simulation loop up to the rendering call. -/
def tick (s : State) (d : Draws) : State :=
  repair_phase (move_phase (dispatch (arrival s d)))

/-- The condition of the `while` (with `simulation_running` equal to 1). -/
def loop_cond (s : State) : Bool :=
  decide (s.active_requests < s.num_requests) || decide (0 < s.request_queue.length)
    || s.fire_mode

/-- The test of the `break` at the end of the loop body. -/
def fire_exit (s : State) : Bool :=
  s.fire_mode && all_elevators_at_ground s.elevators

/-! ## Runs -/

/-- Where control is with respect to the simulation loop. -/
inductive Phase where
  | running
  | fire_done
  | finished
deriving DecidableEq, Repr

/-- A simulation state together with the position of control. -/
structure Sim where
  st : State
  phase : Phase
deriving DecidableEq, Repr

/-- What can happen to a running simulation: one loop iteration, a `SIGUSR1`
(breakdown) or a `SIGUSR2` (fire). -/
inductive Event where
  | tick (d : Draws)
  | breakdown (r1 r2 r3 rr : Nat)
  | fire
deriving DecidableEq, Repr

/-- The state set up by `main` before the loop, for the given command-line
configuration. -/
def initial (num_floors num_requests interval : Int) : Sim :=
  { st :=
      { num_floors := num_floors
        num_requests := num_requests
        interval := interval
        elevators := List.replicate MAX_ELEVATORS
          { current_floor := 0, target_floor := -1, idle := true, broken := false,
            repair_intervals := 0 }
        request_queue := []
        active_requests := 0
        fire_mode := false
        repair_requested := false
        repair_time := 0
        out_of_bounds := false }
    phase := Phase.running }

/-- One event.  A tick evaluates the loop condition, runs the body and then the
`break` test.  Once the loop has been left the state is the one at loop exit and
is not changed any more. -/
def step (m : Sim) (ev : Event) : Sim :=
  match m.phase with
  | Phase.running =>
    match ev with
    | Event.tick d =>
      if loop_cond m.st then
        let s := tick m.st d
        if fire_exit s then { st := s, phase := Phase.fire_done }
        else { st := s, phase := Phase.running }
      else { st := m.st, phase := Phase.finished }
    | Event.breakdown r1 r2 r3 rr =>
      { st := breakdown m.st r1 r2 r3 rr, phase := Phase.running }
    | Event.fire => { st := fire_response m.st, phase := Phase.running }
  | _ => m

/-- A finite run. -/
def run (m : Sim) (evs : List Event) : Sim :=
  evs.foldl step m

/-- The states reachable from the initial state of a configuration. -/
def Reachable (num_floors num_requests interval : Int) (m : Sim) : Prop :=
  ∃ evs : List Event, run (initial num_floors num_requests interval) evs = m

/-! ## Vocabulary of the properties -/

/-- The distance computed by the dispatcher, `abs(current_floor - request_floor)`. -/
def distance_to (request_floor : Int) (e : Elevator) : Int :=
  ((e.current_floor - request_floor).natAbs : Int)

/-- A floor of the building: a value in `[0, num_floors - 1]`. -/
def floor_ok (num_floors x : Int) : Prop := 0 ≤ x ∧ x < num_floors

/-- A fleet used to instantiate the properties: cabins at floors 5, 2 and 4,
the first one busy, the other two idle. -/
def sample_fleet : List Elevator :=
  [ { current_floor := 5, target_floor := 7, idle := false, broken := false,
      repair_intervals := 0 },
    { current_floor := 2, target_floor := -1, idle := true, broken := false,
      repair_intervals := 0 },
    { current_floor := 4, target_floor := 4, idle := true, broken := false,
      repair_intervals := 0 } ]

/-- What one iteration of the dispatch loop saw and decided: the request read
from the queue, the fleet at that moment, and the value returned by
`find_nearest_idle_elevator` for it (`-1` when the request stays queued). -/
structure ScanRecord where
  request : Request
  fleet : List Elevator
  nearest : Int
deriving DecidableEq, Repr

/-- The dispatch loop with the same control flow as `dispatch_loop`, returning
the record of its iterations in scan order instead of the final state. -/
def dispatch_trace (num_floors : Int) :
    Nat → List Elevator → List Request → Nat → List ScanRecord
  | 0, _, _, _ => []
  | fuel + 1, es, q, i =>
    if i < q.length then
      let r := q.getD i default
      let nearest_elevator := find_nearest_idle_elevator num_floors es r.start_floor
      if nearest_elevator ≠ -1 then
        { request := r, fleet := es, nearest := nearest_elevator } ::
          dispatch_trace num_floors fuel
            (assign es nearest_elevator.toNat r.target_floor) (remove_at q i) i
      else
        { request := r, fleet := es, nearest := nearest_elevator } ::
          dispatch_trace num_floors fuel es q (i + 1)
    else []

/-- The records of the iterations that matched their request. -/
def matched (tr : List ScanRecord) : List ScanRecord :=
  tr.filter (fun c => decide (c.nearest ≠ -1))

/-- The records of the iterations that left their request in the queue. -/
def unmatched (tr : List ScanRecord) : List ScanRecord :=
  tr.filter (fun c => decide (c.nearest = -1))

/-- The effect of one iteration of the `handle_repair` loop on its elevator. -/
def repair_elevator (e : Elevator) : Elevator :=
  if e.broken then
    if e.repair_intervals - 1 ≤ 0 then
      { e with repair_intervals := e.repair_intervals - 1, broken := false }
    else
      { e with repair_intervals := e.repair_intervals - 1 }
  else e

/-- The range condition on one elevator: the cabin is on a floor of the
building, and so is the destination of a cabin that is not idle. -/
def elevator_in_range (num_floors : Int) (e : Elevator) : Prop :=
  floor_ok num_floors e.current_floor ∧
    (e.idle = false → floor_ok num_floors e.target_floor)

/-- The range condition on a state: at least one floor, every elevator in
range, and every queued request between floors of the building. -/
def in_range (s : State) : Prop :=
  1 ≤ s.num_floors ∧
  (∀ e ∈ s.elevators, elevator_in_range s.num_floors e) ∧
  (∀ r ∈ s.request_queue,
    floor_ok s.num_floors r.start_floor ∧ floor_ok s.num_floors r.target_floor)

/-- The record of the dispatch block of one loop iteration: no iteration of the
scan runs in fire mode. -/
def dispatch_record (s : State) : List ScanRecord :=
  if s.fire_mode then []
  else dispatch_trace s.num_floors s.request_queue.length s.elevators s.request_queue 0

/-- A state used to instantiate the properties: ten floors, the sample fleet
and three queued requests. -/
def sample_state : State :=
  { num_floors := 10
    num_requests := 1000
    interval := 2
    elevators := sample_fleet
    request_queue :=
      [ { start_floor := 3, target_floor := 8 },
        { start_floor := 9, target_floor := 0 },
        { start_floor := 0, target_floor := 6 } ]
    active_requests := 5
    fire_mode := false
    repair_requested := false
    repair_time := 0
    out_of_bounds := false }

/-- Consecutive iterations of the loop body, with no signal in between. -/
def run_ticks (s : State) (ds : List Draws) : State :=
  ds.foldl tick s

/-- A run of a building of 1000 floors (`--floors 1000`, other options at their
defaults) in which every iteration generates a request from floor 0 to floor
999: the first three requests send the three cabins on a trip of 999 ticks, the
later ones wait in the queue. -/
def overflow_events (n : Nat) : List Event :=
  List.replicate n (Event.tick ⟨0, 0, 999⟩)

/-- The run `overflow_events 103` followed by one more iteration, which
generates a request from floor 101 to floor 999. -/
def stray_events : List Event :=
  overflow_events 103 ++ [Event.tick ⟨0, 101, 999⟩]

/-- A run of the default configuration: a request to floor 5 is assigned to the
first cabin, which leaves the ground floor; then the fire alarm, a breakdown of
the first cabin, and one more iteration. -/
def stranded_events : List Event :=
  [Event.tick ⟨0, 0, 5⟩, Event.fire, Event.breakdown 0 0 0 0, Event.tick ⟨0, 0, 0⟩]

/-- The state of a building of 2147483647 floors (`--floors 2147483647`) in the
first loop iteration, after the arrival block has generated a request from floor
5 to floor 9 and before the dispatch block. -/
def int_max_state : State :=
  arrival (initial 2147483647 1000 2).st ⟨0, 5, 9⟩

/-! # Properties -/

/-! ## The nearest idle elevator -/

theorem distance_to_lt {nf rf : Int} {e : Elevator}
    (he : floor_ok nf e.current_floor) (hr : floor_ok nf rf) :
    distance_to rf e < nf + 1 := by
  unfold distance_to floor_ok at *
  omega

/-- Loop invariant of `find_nearest_loop`: either no remaining eligible elevator
beats the incoming bound and the incoming candidate is returned, or the first
remaining minimiser is returned. -/
theorem find_nearest_loop_spec (rf : Int) :
    ∀ (es : List Elevator) (i : Nat) (nearest nd : Int),
      (find_nearest_loop rf es i nearest nd = nearest ∧
        ∀ e ∈ es, e.idle = true → e.broken = false → nd ≤ distance_to rf e) ∨
      (∃ (k : Nat) (e : Elevator), es[k]? = some e ∧
        find_nearest_loop rf es i nearest nd = ((i + k : Nat) : Int) ∧
        e.idle = true ∧ e.broken = false ∧ distance_to rf e < nd ∧
        (∀ (j : Nat) (x : Elevator), es[j]? = some x → x.idle = true → x.broken = false →
          distance_to rf e ≤ distance_to rf x) ∧
        (∀ (j : Nat) (x : Elevator), j < k → es[j]? = some x → x.idle = true →
          x.broken = false → distance_to rf e < distance_to rf x)) := by
  intro es
  induction es with
  | nil =>
    intro i nearest nd
    left
    simp [find_nearest_loop]
  | cons a rest ih =>
    intro i nearest nd
    by_cases hel : a.idle = true ∧ a.broken = false
    · obtain ⟨hi, hb⟩ := hel
      by_cases hd : distance_to rf a < nd
      · have hstep : find_nearest_loop rf (a :: rest) i nearest nd
            = find_nearest_loop rf rest (i + 1) (i : Int) (distance_to rf a) := by
          simp [find_nearest_loop, hi, hb, distance_to] at hd ⊢
          intro h; omega
        rw [hstep]
        rcases ih (i + 1) (i : Int) (distance_to rf a) with ⟨hr, hall⟩ | ⟨k, e, hk, hr, h1, h2, h3, h4, h5⟩
        · right
          refine ⟨0, a, by simp, by simpa using hr, hi, hb, hd, ?_, ?_⟩
          · intro j x hj hxi hxb
            cases j with
            | zero => simp at hj; subst hj; exact le_refl _
            | succ j =>
              simp at hj
              exact hall x (List.getElem?_mem hj) hxi hxb
          · intro j x hj; omega
        · right
          refine ⟨k + 1, e, by simpa using hk, ?_, h1, h2, lt_trans h3 hd, ?_, ?_⟩
          · rw [hr]; push_cast; ring
          · intro j x hj hxi hxb
            cases j with
            | zero => simp at hj; subst hj; exact le_of_lt h3
            | succ j => simp at hj; exact h4 j x hj hxi hxb
          · intro j x hjk hj hxi hxb
            cases j with
            | zero => simp at hj; subst hj; exact h3
            | succ j => simp at hj; exact h5 j x (by omega) hj hxi hxb
      · have hstep : find_nearest_loop rf (a :: rest) i nearest nd
            = find_nearest_loop rf rest (i + 1) nearest nd := by
          simp [find_nearest_loop, hi, hb, distance_to] at hd ⊢
          intro h; omega
        rw [hstep]
        rcases ih (i + 1) nearest nd with ⟨hr, hall⟩ | ⟨k, e, hk, hr, h1, h2, h3, h4, h5⟩
        · left
          refine ⟨hr, ?_⟩
          intro x hx hxi hxb
          rcases List.mem_cons.mp hx with rfl | hx
          · exact not_lt.mp hd
          · exact hall x hx hxi hxb
        · right
          refine ⟨k + 1, e, by simpa using hk, ?_, h1, h2, h3, ?_, ?_⟩
          · rw [hr]; push_cast; ring
          · intro j x hj hxi hxb
            cases j with
            | zero => simp at hj; subst hj; exact le_trans (le_of_lt h3) (not_lt.mp hd)
            | succ j => simp at hj; exact h4 j x hj hxi hxb
          · intro j x hjk hj hxi hxb
            cases j with
            | zero => simp at hj; subst hj; exact lt_of_lt_of_le h3 (not_lt.mp hd)
            | succ j => simp at hj; exact h5 j x (by omega) hj hxi hxb
    · have hstep : find_nearest_loop rf (a :: rest) i nearest nd
          = find_nearest_loop rf rest (i + 1) nearest nd := by
        have : (a.idle && !a.broken) = false := by
          cases hi : a.idle <;> cases hb : a.broken <;> simp_all
        simp [find_nearest_loop, this]
      rw [hstep]
      rcases ih (i + 1) nearest nd with ⟨hr, hall⟩ | ⟨k, e, hk, hr, h1, h2, h3, h4, h5⟩
      · left
        refine ⟨hr, ?_⟩
        intro x hx hxi hxb
        rcases List.mem_cons.mp hx with rfl | hx
        · exact absurd ⟨hxi, hxb⟩ hel
        · exact hall x hx hxi hxb
      · right
        refine ⟨k + 1, e, by simpa using hk, ?_, h1, h2, h3, ?_, ?_⟩
        · rw [hr]; push_cast; ring
        · intro j x hj hxi hxb
          cases j with
          | zero => simp at hj; subst hj; exact absurd ⟨hxi, hxb⟩ hel
          | succ j => simp at hj; exact h4 j x hj hxi hxb
        · intro j x hjk hj hxi hxb
          cases j with
          | zero => simp at hj; subst hj; exact absurd ⟨hxi, hxb⟩ hel
          | succ j => simp at hj; exact h5 j x (by omega) hj hxi hxb

theorem distance_to_eq_abs (rf : Int) (e : Elevator) :
    distance_to rf e = |e.current_floor - rf| := by
  unfold distance_to
  exact Int.natCast_natAbs _

/-- An `int` sum whose exact value is an `int` has that value. -/
theorem int_wrap_of_int (x : Int) (hlo : -2147483648 ≤ x) (hhi : x ≤ INT_MAX) :
    int_wrap x = x := by
  unfold int_wrap
  unfold INT_MAX at hhi
  omega

/-- What `find_nearest_idle_elevator` returns when all floors are in range and
`num_floors + 1` is an `int`: `-1` when no elevator is idle and in service, and
otherwise the first index of an idle, in-service elevator at minimal
distance. -/
theorem find_nearest_cases (nf : Int) (es : List Elevator) (rf : Int)
    (hnf : nf < INT_MAX)
    (hes : ∀ e ∈ es, floor_ok nf e.current_floor) (hrf : floor_ok nf rf) :
    (find_nearest_idle_elevator nf es rf = -1 ∧
      ∀ e ∈ es, ¬ (e.idle = true ∧ e.broken = false)) ∨
    (∃ (i : Nat) (e : Elevator), es[i]? = some e ∧
      find_nearest_idle_elevator nf es rf = (i : Int) ∧
      e.idle = true ∧ e.broken = false ∧
      (∀ (j : Nat) (x : Elevator), es[j]? = some x → x.idle = true → x.broken = false →
        distance_to rf e ≤ distance_to rf x) ∧
      (∀ (j : Nat) (x : Elevator), j < i → es[j]? = some x → x.idle = true →
        x.broken = false → distance_to rf e < distance_to rf x)) := by
  unfold find_nearest_idle_elevator
  have hwrap : int_wrap (nf + 1) = nf + 1 := by
    apply int_wrap_of_int
    · unfold floor_ok at hrf
      omega
    · omega
  rw [hwrap]
  rcases find_nearest_loop_spec rf es 0 (-1) (nf + 1) with
    ⟨hr, hall⟩ | ⟨k, e, hk, hr, h1, h2, _, h4, h5⟩
  · left
    refine ⟨hr, ?_⟩
    rintro e he ⟨hi, hb⟩
    have := hall e he hi hb
    have := distance_to_lt (hes e he) hrf
    omega
  · right
    exact ⟨k, e, hk, by simpa using hr, h1, h2, h4, h5⟩

/-- The nearest idle elevator below `INT_MAX` floors: when `num_floors + 1` is
an `int` and all elevator floors and the request floor are in
`[0, num_floors-1]`, `find_nearest_idle_elevator` returns `-1` exactly when no
elevator is idle and not broken; otherwise it returns the index `i` of an idle,
non-broken elevator whose distance `|current_floor - request_floor|` is minimal
among the idle, non-broken elevators, and no lower index attains that
minimum. -/
theorem find_nearest_idle_elevator_correct (num_floors : Int) (es : List Elevator)
    (request_floor : Int) (hnf : num_floors < INT_MAX)
    (hes : ∀ e ∈ es, floor_ok num_floors e.current_floor)
    (hrf : floor_ok num_floors request_floor) :
    (find_nearest_idle_elevator num_floors es request_floor = -1 ↔
      ∀ e ∈ es, ¬ (e.idle = true ∧ e.broken = false)) ∧
    ((∃ e ∈ es, e.idle = true ∧ e.broken = false) →
      ∃ (i : Nat) (e : Elevator),
        find_nearest_idle_elevator num_floors es request_floor = (i : Int) ∧
        es[i]? = some e ∧ e.idle = true ∧ e.broken = false ∧
        (∀ (j : Nat) (x : Elevator), es[j]? = some x → x.idle = true →
          x.broken = false →
          |e.current_floor - request_floor| ≤ |x.current_floor - request_floor|) ∧
        (∀ (j : Nat) (x : Elevator), j < i → es[j]? = some x → x.idle = true →
          x.broken = false →
          |e.current_floor - request_floor| < |x.current_floor - request_floor|)) := by
  simp only [← distance_to_eq_abs]
  rcases find_nearest_cases num_floors es request_floor hnf hes hrf with
    ⟨hr, hnone⟩ | ⟨i, e, hi, hr, h1, h2, h3, h4⟩
  · refine ⟨⟨fun _ => hnone, fun _ => hr⟩, ?_⟩
    rintro ⟨e, he, hel⟩
    exact absurd hel (hnone e he)
  · refine ⟨⟨?_, ?_⟩, fun _ => ⟨i, e, hr, hi, h1, h2, h3, h4⟩⟩
    · intro h
      rw [hr] at h
      omega
    · intro h
      exact absurd ⟨h1, h2⟩ (h e (List.getElem?_mem hi))

/-- The nearest idle elevator at a concrete fleet of ten floors: for a request
at floor 3 the two idle cabins at floors 2 and 4 are both at distance 1 and the
lower index 1 wins. -/
theorem find_nearest_idle_elevator_correct_witness :
    (10 : Int) < INT_MAX ∧
    (∀ e ∈ sample_fleet, floor_ok 10 e.current_floor) ∧ floor_ok 10 3 ∧
    find_nearest_idle_elevator 10 sample_fleet 3 = 1 ∧
    ((find_nearest_idle_elevator 10 sample_fleet 3 = -1 ↔
      ∀ e ∈ sample_fleet, ¬ (e.idle = true ∧ e.broken = false))) :=
  ⟨by decide, by simp [sample_fleet, floor_ok], by simp [floor_ok], by decide,
    (find_nearest_idle_elevator_correct 10 sample_fleet 3 (by decide)
      (by simp [sample_fleet, floor_ok]) (by simp [floor_ok])).1⟩

/-- C2 fails at `num_floors = 2147483647`: the fleet set up by `main` has its
three cabins idle and in service at floor 0, floor 5 is a floor of the building,
and `find_nearest_idle_elevator(5)` returns `-1`.  The `int` sum
`num_floors + 1` that initialises `nearest_distance` is `-2147483648`, and no
distance is below it. -/
theorem find_nearest_idle_elevator_at_int_max :
    (∀ e ∈ (initial 2147483647 1000 2).st.elevators,
      0 ≤ e.current_floor ∧ e.current_floor ≤ 2147483647 - 1) ∧
    ((0 : Int) ≤ 5 ∧ (5 : Int) ≤ 2147483647 - 1) ∧
    (∀ e ∈ (initial 2147483647 1000 2).st.elevators,
      e.idle = true ∧ e.broken = false) ∧
    (initial 2147483647 1000 2).st.elevators.length = 3 ∧
    int_wrap (2147483647 + 1) = -2147483648 ∧
    find_nearest_idle_elevator 2147483647 (initial 2147483647 1000 2).st.elevators 5
      = -1 :=
  ⟨by decide, by decide, by decide, by decide, by decide, by decide⟩


/-! ## Queue removal -/

theorem shift_loop_length : ∀ (n : Nat) (q : List Request) (j : Nat),
    (shift_loop n q j).length = q.length := by
  intro n
  induction n with
  | zero => intro q j; rfl
  | succ n ih => intro q j; simp [shift_loop, ih]

/-- Cell `k` after the shift loop: the cells `j .. j+n-1` received their right
neighbour, all others are untouched. -/
theorem shift_loop_getElem? : ∀ (n : Nat) (q : List Request) (j k : Nat),
    j + n < q.length →
    (shift_loop n q j)[k]? = if j ≤ k ∧ k < j + n then q[k + 1]? else q[k]? := by
  intro n
  induction n with
  | zero =>
    intro q j k _
    have : ¬ (j ≤ k ∧ k < j + 0) := by omega
    rw [if_neg this]
    rfl
  | succ n ih =>
    intro q j k h
    have hlen : j + 1 + n < (q.set j (q.getD (j + 1) default)).length := by
      simp; omega
    rw [shift_loop, ih _ _ k hlen]
    have hj1 : q.getD (j + 1) default = q[j + 1] := by
      simp [List.getD, List.getElem?_eq_getElem (show j + 1 < q.length by omega)]
    by_cases hk : k = j
    · subst hk
      have h1 : ¬ (k + 1 ≤ k ∧ k < k + 1 + n) := by omega
      have h2 : k ≤ k ∧ k < k + (n + 1) := by omega
      rw [if_neg h1, if_pos h2, List.getElem?_set, if_pos rfl, if_pos (by omega),
        hj1, List.getElem?_eq_getElem]
    · by_cases hin : j + 1 ≤ k ∧ k < j + 1 + n
      · have h2 : j ≤ k ∧ k < j + (n + 1) := by omega
        rw [if_pos hin, if_pos h2, List.getElem?_set, if_neg (by omega)]
      · have h2 : ¬ (j ≤ k ∧ k < j + (n + 1)) := by omega
        rw [if_neg hin, if_neg h2, List.getElem?_set, if_neg (by omega)]

/-- The shift loop followed by `queue_size--` removes exactly cell `i` and keeps
all other cells in order. -/
theorem remove_at_eq_eraseIdx (q : List Request) (i : Nat) (hi : i < q.length) :
    remove_at q i = q.eraseIdx i := by
  apply List.ext_getElem?
  intro k
  unfold remove_at
  rw [List.dropLast_eq_take, List.getElem?_take, shift_loop_length,
    List.getElem?_eraseIdx]
  by_cases hk : k < q.length - 1
  · rw [if_pos hk, shift_loop_getElem? _ _ _ _ (by omega)]
    by_cases hki : k < i
    · rw [if_neg (by omega), if_pos hki]
    · rw [if_pos (by omega), if_neg hki]
  · rw [if_neg hk]
    by_cases hki : k < i
    · omega
    · rw [if_neg hki]
      exact (List.getElem?_eq_none (by omega)).symm

/-! ## The dispatch loop, one iteration at a time -/

/-- A value of `find_nearest_idle_elevator` other than `-1` is the index of an
idle elevator that is not broken. -/
theorem find_nearest_valid (nf : Int) (es : List Elevator) (rf : Int)
    (h : find_nearest_idle_elevator nf es rf ≠ -1) :
    ∃ (k : Nat) (e : Elevator), find_nearest_idle_elevator nf es rf = (k : Int) ∧
      es[k]? = some e ∧ e.idle = true ∧ e.broken = false := by
  unfold find_nearest_idle_elevator at *
  rcases find_nearest_loop_spec rf es 0 (-1) (int_wrap (nf + 1)) with
    ⟨hr, _⟩ | ⟨k, e, hk, hr, h1, h2, _⟩
  · exact absurd hr h
  · exact ⟨k, e, by simpa using hr, hk, h1, h2⟩

theorem getD_of_getElem? {q : List Request} {i : Nat} {r : Request}
    (h : q[i]? = some r) : q.getD i default = r := by
  simp [List.getD, h]

theorem lt_length_of_getElem? {α : Type} {q : List α} {i : Nat} {r : α}
    (h : q[i]? = some r) : i < q.length := by
  by_contra hc
  rw [List.getElem?_eq_none (by omega)] at h
  exact Option.noConfusion h

theorem dispatch_loop_end (nf : Int) (fuel : Nat) (es : List Elevator)
    (q : List Request) (i : Nat) (h : q.length ≤ i) :
    dispatch_loop nf fuel es q i = (es, q) := by
  cases fuel with
  | zero => rfl
  | succ n => simp [dispatch_loop, Nat.not_lt.mpr h]

theorem dispatch_loop_match (nf : Int) (fuel : Nat) (es : List Elevator)
    (q : List Request) (i k : Nat) (r : Request) (hr : q[i]? = some r)
    (hk : find_nearest_idle_elevator nf es r.start_floor = (k : Int)) :
    dispatch_loop nf (fuel + 1) es q i
      = dispatch_loop nf fuel (assign es k r.target_floor) (q.eraseIdx i) i := by
  have hi := lt_length_of_getElem? hr
  have hne : (k : Int) ≠ -1 := by omega
  have hg := getD_of_getElem? hr
  rw [dispatch_loop, if_pos hi]
  simp only [hg, hk, hne, ne_eq, not_false_eq_true, if_true, Int.toNat_ofNat,
    remove_at_eq_eraseIdx q i hi]

theorem dispatch_loop_skip (nf : Int) (fuel : Nat) (es : List Elevator)
    (q : List Request) (i : Nat) (r : Request) (hr : q[i]? = some r)
    (hk : find_nearest_idle_elevator nf es r.start_floor = -1) :
    dispatch_loop nf (fuel + 1) es q i = dispatch_loop nf fuel es q (i + 1) := by
  have hi := lt_length_of_getElem? hr
  have hg := getD_of_getElem? hr
  rw [dispatch_loop, if_pos hi]
  simp only [hg, hk, ne_eq, not_true_eq_false, if_false]

theorem dispatch_trace_end (nf : Int) (fuel : Nat) (es : List Elevator)
    (q : List Request) (i : Nat) (h : q.length ≤ i) :
    dispatch_trace nf fuel es q i = [] := by
  cases fuel with
  | zero => rfl
  | succ n => simp [dispatch_trace, Nat.not_lt.mpr h]

theorem dispatch_trace_match (nf : Int) (fuel : Nat) (es : List Elevator)
    (q : List Request) (i k : Nat) (r : Request) (hr : q[i]? = some r)
    (hk : find_nearest_idle_elevator nf es r.start_floor = (k : Int)) :
    dispatch_trace nf (fuel + 1) es q i
      = { request := r, fleet := es, nearest := (k : Int) } ::
        dispatch_trace nf fuel (assign es k r.target_floor) (q.eraseIdx i) i := by
  have hi := lt_length_of_getElem? hr
  have hne : (k : Int) ≠ -1 := by omega
  have hg := getD_of_getElem? hr
  rw [dispatch_trace, if_pos hi]
  simp only [hg, hk, hne, ne_eq, not_false_eq_true, if_true, Int.toNat_ofNat,
    remove_at_eq_eraseIdx q i hi]

theorem dispatch_trace_skip (nf : Int) (fuel : Nat) (es : List Elevator)
    (q : List Request) (i : Nat) (r : Request) (hr : q[i]? = some r)
    (hk : find_nearest_idle_elevator nf es r.start_floor = -1) :
    dispatch_trace nf (fuel + 1) es q i
      = { request := r, fleet := es, nearest := -1 } ::
        dispatch_trace nf fuel es q (i + 1) := by
  have hi := lt_length_of_getElem? hr
  have hg := getD_of_getElem? hr
  rw [dispatch_trace, if_pos hi]
  simp only [hg, hk, ne_eq, not_true_eq_false, if_false]

/-- Induction along the iterations of the dispatch loop started with enough
fuel: the loop ends when `i` reaches `queue_size`; an iteration either matches
the request at `i` with an idle, in-service elevator and removes it, or leaves it
and moves on. -/
theorem dispatch_induction (nf : Int)
    (motive : Nat → List Elevator → List Request → Nat → Prop)
    (h_end : ∀ fuel es q i, q.length ≤ i → motive fuel es q i)
    (h_match : ∀ fuel es q i (r : Request) (k : Nat) (e : Elevator),
      q[i]? = some r → find_nearest_idle_elevator nf es r.start_floor = (k : Int) →
      es[k]? = some e → e.idle = true → e.broken = false →
      motive fuel (assign es k r.target_floor) (q.eraseIdx i) i →
      motive (fuel + 1) es q i)
    (h_skip : ∀ fuel es q i (r : Request),
      q[i]? = some r → find_nearest_idle_elevator nf es r.start_floor = -1 →
      motive fuel es q (i + 1) → motive (fuel + 1) es q i) :
    ∀ fuel es q i, q.length ≤ i + fuel → motive fuel es q i := by
  intro fuel
  induction fuel with
  | zero => intro es q i h; exact h_end 0 es q i (by omega)
  | succ n ih =>
    intro es q i h
    by_cases hi : i < q.length
    · have hr : q[i]? = some q[i] := List.getElem?_eq_getElem hi
      by_cases hn : find_nearest_idle_elevator nf es (q[i]).start_floor = -1
      · exact h_skip n es q i _ hr hn (ih es q (i + 1) (by omega))
      · obtain ⟨k, e, hk, hek, hidle, hbroken⟩ := find_nearest_valid nf es _ hn
        refine h_match n es q i _ k e hr hk hek hidle hbroken (ih _ _ i ?_)
        rw [List.length_eraseIdx]
        simp [hi]
        omega
    · exact h_end _ es q i (by omega)

/-! ## Frame facts: which globals each block writes -/

theorem handle_repair_loop_elevators : ∀ (es : List Elevator) (rq : Bool) (rt : Int),
    (handle_repair_loop es rq rt).1 = es.map repair_elevator := by
  intro es
  induction es with
  | nil => intro rq rt; rfl
  | cons e rest ih =>
    intro rq rt
    rw [handle_repair_loop, List.map_cons]
    by_cases hb : e.broken = true
    · by_cases hr : e.repair_intervals - 1 ≤ 0
      · have he : repair_elevator e
            = { e with repair_intervals := e.repair_intervals - 1, broken := false } := by
          unfold repair_elevator
          rw [if_pos hb, if_pos hr]
        rw [if_pos hb, he]
        simp only [hr, if_true, ih]
      · have he : repair_elevator e
            = { e with repair_intervals := e.repair_intervals - 1 } := by
          unfold repair_elevator
          rw [if_pos hb, if_neg hr]
        rw [if_pos hb, he]
        simp only [hr, if_false, ih]
    · have he : repair_elevator e = e := by
        unfold repair_elevator
        rw [if_neg hb]
      rw [if_neg hb, he]
      simp only [ih]

theorem assign_of_getElem? {es : List Elevator} {k : Nat} {e : Elevator}
    (h : es[k]? = some e) (t : Int) :
    assign es k t = es.set k { e with target_floor := t, idle := false } := by
  simp [assign, List.getD, h]

/-- A property of elevators that survives the update `f` survives the store of
`f (elevators[k])` into `elevators[k]`. -/
theorem forall_mem_set_getD (P : Elevator → Prop) (f : Elevator → Elevator)
    (hf : ∀ e, P e → P (f e)) (es : List Elevator) (k : Nat)
    (h : ∀ e ∈ es, P e) : ∀ e ∈ es.set k (f (es.getD k default)), P e := by
  intro e he
  by_cases hk : k < es.length
  · rcases List.mem_or_eq_of_mem_set he with h1 | h2
    · exact h e h1
    · subst h2
      apply hf
      apply h
      simp [List.getD, List.getElem?_eq_getElem hk]
  · rw [List.set_eq_of_length_le (by omega)] at he
    exact h e he

@[simp] theorem arrival_num_floors (s : State) (d : Draws) :
    (arrival s d).num_floors = s.num_floors := by
  unfold arrival; split <;> rfl

@[simp] theorem arrival_fire_mode (s : State) (d : Draws) :
    (arrival s d).fire_mode = s.fire_mode := by
  unfold arrival; split <;> rfl

@[simp] theorem dispatch_num_floors (s : State) :
    (dispatch s).num_floors = s.num_floors := by
  unfold dispatch; split <;> rfl

@[simp] theorem dispatch_fire_mode (s : State) :
    (dispatch s).fire_mode = s.fire_mode := by
  unfold dispatch; split <;> rfl

@[simp] theorem move_phase_num_floors (s : State) :
    (move_phase s).num_floors = s.num_floors := rfl

@[simp] theorem move_phase_fire_mode (s : State) :
    (move_phase s).fire_mode = s.fire_mode := rfl

@[simp] theorem move_phase_request_queue (s : State) :
    (move_phase s).request_queue = s.request_queue := rfl

@[simp] theorem move_phase_elevators (s : State) :
    (move_phase s).elevators = move_all s.elevators := rfl

@[simp] theorem repair_phase_num_floors (s : State) :
    (repair_phase s).num_floors = s.num_floors := by
  unfold repair_phase handle_repair; split
  · rfl
  · split <;> rfl

@[simp] theorem repair_phase_fire_mode (s : State) :
    (repair_phase s).fire_mode = s.fire_mode := by
  unfold repair_phase handle_repair; split
  · rfl
  · split <;> rfl

@[simp] theorem repair_phase_request_queue (s : State) :
    (repair_phase s).request_queue = s.request_queue := by
  unfold repair_phase handle_repair; split
  · rfl
  · split <;> rfl

/-- The repair block rewrites the fleet elevator by elevator, and only outside
fire mode. -/
theorem repair_phase_elevators (s : State) :
    (repair_phase s).elevators
      = if s.fire_mode then s.elevators else s.elevators.map repair_elevator := by
  unfold repair_phase
  by_cases hf : s.fire_mode = true
  · rw [if_pos hf, if_pos hf]
  · rw [if_neg hf, if_neg hf]
    by_cases ha : (s.elevators.any fun e => e.broken) = true
    · rw [if_pos ha]
      simp only [handle_repair, handle_repair_loop_elevators]
    · rw [if_neg ha]
      simp only [Bool.not_eq_true, List.any_eq_false] at ha
      symm
      conv_rhs => rw [← List.map_id s.elevators]
      apply List.map_congr_left
      intro e he
      have := ha e he
      simp [repair_elevator, this]

@[simp] theorem tick_num_floors (s : State) (d : Draws) :
    (tick s d).num_floors = s.num_floors := by
  simp [tick]

@[simp] theorem tick_fire_mode (s : State) (d : Draws) :
    (tick s d).fire_mode = s.fire_mode := by
  simp [tick]

@[simp] theorem breakdown_num_floors (s : State) (r1 r2 r3 rr : Nat) :
    (breakdown s r1 r2 r3 rr).num_floors = s.num_floors := by
  unfold breakdown; simp only []; split <;> rfl

@[simp] theorem breakdown_request_queue (s : State) (r1 r2 r3 rr : Nat) :
    (breakdown s r1 r2 r3 rr).request_queue = s.request_queue := by
  unfold breakdown; simp only []; split <;> rfl

@[simp] theorem breakdown_fire_mode (s : State) (r1 r2 r3 rr : Nat) :
    (breakdown s r1 r2 r3 rr).fire_mode = s.fire_mode := by
  unfold breakdown; simp only []; split <;> rfl

/-! ## Runs and invariants -/

/-- A property of the simulation that every event preserves holds along every
run. -/
theorem run_invariant (P : Sim → Prop) (hstep : ∀ m ev, P m → P (step m ev)) :
    ∀ (evs : List Event) (m : Sim), P m → P (run m evs) := by
  intro evs
  induction evs with
  | nil => intro m h; exact h
  | cons ev rest ih => intro m h; exact ih (step m ev) (hstep m ev h)

/-- A property of the state preserved by the loop body and by both signal
handlers is preserved by every event. -/
theorem step_state_invariant (P : State → Prop)
    (htick : ∀ s d, P s → P (tick s d))
    (hbreak : ∀ s r1 r2 r3 rr, P s → P (breakdown s r1 r2 r3 rr))
    (hfire : ∀ s, P s → P (fire_response s)) :
    ∀ (m : Sim) (ev : Event), P m.st → P (step m ev).st := by
  intro m ev h
  unfold step
  cases hp : m.phase <;> simp only []
  · cases ev with
    | tick d =>
      simp only []
      split
      · split
        · exact htick _ d h
        · exact htick _ d h
      · exact h
    | breakdown r1 r2 r3 rr => exact hbreak _ _ _ _ _ h
    | fire => exact hfire _ h
  · exact h
  · exact h

/-- A state property established by `main` before the loop and preserved by the
loop body and both handlers holds in every reachable state. -/
theorem reachable_invariant (P : State → Prop) (nf nr iv : Int)
    (hinit : P (initial nf nr iv).st)
    (htick : ∀ s d, P s → P (tick s d))
    (hbreak : ∀ s r1 r2 r3 rr, P s → P (breakdown s r1 r2 r3 rr))
    (hfire : ∀ s, P s → P (fire_response s))
    (m : Sim) (hm : Reachable nf nr iv m) : P m.st := by
  obtain ⟨evs, rfl⟩ := hm
  exact run_invariant (fun m => P m.st)
    (step_state_invariant P htick hbreak hfire) evs _ hinit

/-- The number of iterations given to the dispatch loop by `dispatch` is enough:
with `queue_size - i` iterations allowed the loop ends by its own test
`i < queue_size`, and allowing more iterations does not change its result. -/
theorem dispatch_loop_fuel (nf : Int) :
    ∀ (fuel : Nat) (es : List Elevator) (q : List Request) (i : Nat),
      q.length ≤ i + fuel →
      ∀ extra : Nat,
        dispatch_loop nf (fuel + extra) es q i = dispatch_loop nf fuel es q i := by
  apply dispatch_induction nf
    (fun fuel es q i => ∀ extra : Nat,
      dispatch_loop nf (fuel + extra) es q i = dispatch_loop nf fuel es q i)
  · intro fuel es q i h extra
    rw [dispatch_loop_end nf _ es q i h, dispatch_loop_end nf _ es q i h]
  · intro fuel es q i r k e hr hk _ _ _ ih extra
    rw [Nat.add_right_comm, dispatch_loop_match nf _ es q i k r hr hk,
      dispatch_loop_match nf _ es q i k r hr hk]
    exact ih extra
  · intro fuel es q i r hr hk ih extra
    rw [Nat.add_right_comm, dispatch_loop_skip nf _ es q i r hr hk,
      dispatch_loop_skip nf _ es q i r hr hk]
    exact ih extra

/-- A property of the fleet and the queue that survives every match survives
the whole dispatch loop. -/
theorem dispatch_loop_preserves (nf : Int) (P : List Elevator → List Request → Prop)
    (hstep : ∀ (es : List Elevator) (q : List Request) (i k : Nat) (r : Request)
      (e : Elevator), q[i]? = some r → es[k]? = some e → e.idle = true →
      e.broken = false → P es q →
      P (es.set k { e with target_floor := r.target_floor, idle := false })
        (q.eraseIdx i)) :
    ∀ (fuel : Nat) (es : List Elevator) (q : List Request) (i : Nat),
      q.length ≤ i + fuel → P es q →
      P (dispatch_loop nf fuel es q i).1 (dispatch_loop nf fuel es q i).2 := by
  apply dispatch_induction nf
    (fun fuel es q i => P es q →
      P (dispatch_loop nf fuel es q i).1 (dispatch_loop nf fuel es q i).2)
  · intro fuel es q i h hP
    rw [dispatch_loop_end nf fuel es q i h]
    exact hP
  · intro fuel es q i r k e hr hk he hidle hbroken ih hP
    rw [dispatch_loop_match nf fuel es q i k r hr hk]
    apply ih
    rw [assign_of_getElem? he]
    exact hstep es q i k r e hr he hidle hbroken hP
  · intro fuel es q i r hr hk ih hP
    rw [dispatch_loop_skip nf fuel es q i r hr hk]
    exact ih hP

/-! ## C1: cabins and the floors of the building -/

theorem move_elevator_in_range (nf : Int) (e : Elevator)
    (h : elevator_in_range nf e) : elevator_in_range nf (move_elevator e) := by
  unfold move_elevator
  split
  · exact h
  · rename_i hbi
    have hidle : e.idle = false := by
      cases hi : e.idle <;> simp_all
    obtain ⟨hc, ht⟩ := h
    have ht := ht hidle
    unfold elevator_in_range floor_ok at *
    split
    · simp only []
      refine ⟨⟨by omega, by omega⟩, fun _ => ht⟩
    · split
      · simp only []
        refine ⟨⟨by omega, by omega⟩, fun _ => ht⟩
      · simp only []
        exact ⟨hc, fun hx => by simp at hx⟩

theorem move_all_in_range (nf : Int) (es : List Elevator)
    (h : ∀ e ∈ es, elevator_in_range nf e) :
    ∀ e ∈ move_all es, elevator_in_range nf e := by
  intro e he
  unfold move_all at he
  obtain ⟨a, ha, rfl⟩ := List.mem_map.mp he
  split
  · exact move_elevator_in_range nf a (h a ha)
  · exact h a ha

theorem repair_elevator_in_range (nf : Int) (e : Elevator)
    (h : elevator_in_range nf e) : elevator_in_range nf (repair_elevator e) := by
  unfold repair_elevator
  split
  · split <;> exact h
  · exact h

theorem arrival_in_range (s : State) (d : Draws) (h : in_range s) :
    in_range (arrival s d) := by
  obtain ⟨hnf, hes, hq⟩ := h
  unfold arrival
  split
  · refine ⟨hnf, hes, ?_⟩
    intro r hr
    simp only [List.mem_append, List.mem_singleton] at hr
    rcases hr with hr | rfl
    · exact hq r hr
    · simp only [floor_ok]
      have hpos : (0 : Int) < s.num_floors := by omega
      exact ⟨⟨Int.tmod_nonneg _ (Int.ofNat_nonneg _), Int.tmod_lt_of_pos _ hpos⟩,
        ⟨Int.tmod_nonneg _ (Int.ofNat_nonneg _), Int.tmod_lt_of_pos _ hpos⟩⟩
  · exact ⟨hnf, hes, hq⟩

theorem dispatch_in_range (s : State) (h : in_range s) : in_range (dispatch s) := by
  obtain ⟨hnf, hes, hq⟩ := h
  unfold dispatch
  split
  · exact ⟨hnf, hes, hq⟩
  · have key := dispatch_loop_preserves s.num_floors
      (fun es q => (∀ e ∈ es, elevator_in_range s.num_floors e) ∧
        (∀ r ∈ q, floor_ok s.num_floors r.start_floor ∧
          floor_ok s.num_floors r.target_floor))
      (by
        intro es q i k r e hr he _ _ hP
        obtain ⟨h1, h2⟩ := hP
        refine ⟨?_, fun x hx => h2 x (List.mem_of_mem_eraseIdx hx)⟩
        intro x hx
        rcases List.mem_or_eq_of_mem_set hx with hx | rfl
        · exact h1 x hx
        · exact ⟨(h1 e (List.getElem?_mem he)).1,
            fun _ => (h2 r (List.getElem?_mem hr)).2⟩)
      s.request_queue.length s.elevators s.request_queue 0 (by omega) ⟨hes, hq⟩
    exact ⟨hnf, key.1, key.2⟩

theorem move_phase_in_range (s : State) (h : in_range s) : in_range (move_phase s) :=
  ⟨h.1, move_all_in_range _ _ h.2.1, h.2.2⟩

theorem repair_phase_in_range (s : State) (h : in_range s) :
    in_range (repair_phase s) := by
  obtain ⟨hnf, hes, hq⟩ := h
  refine ⟨by simpa using hnf, ?_, by simpa using hq⟩
  rw [repair_phase_elevators, repair_phase_num_floors]
  split
  · exact hes
  · intro e he
    obtain ⟨a, ha, rfl⟩ := List.mem_map.mp he
    exact repair_elevator_in_range _ a (hes a ha)

theorem tick_in_range (s : State) (d : Draws) (h : in_range s) :
    in_range (tick s d) :=
  repair_phase_in_range _ (move_phase_in_range _ (dispatch_in_range _
    (arrival_in_range s d h)))

theorem breakdown_in_range (s : State) (r1 r2 r3 rr : Nat) (h : in_range s) :
    in_range (breakdown s r1 r2 r3 rr) := by
  obtain ⟨hnf, hes, hq⟩ := h
  unfold breakdown
  simp only []
  split
  · exact ⟨hnf, hes, hq⟩
  · refine ⟨hnf, ?_, hq⟩
    exact forall_mem_set_getD (elevator_in_range s.num_floors)
      (fun e => { e with broken := true,
                         repair_intervals := ((rr % 41 : Nat) : Int) + 10 })
      (fun e he => he) s.elevators _ hes

theorem fire_response_in_range (s : State) (h : in_range s) :
    in_range (fire_response s) := by
  obtain ⟨hnf, hes, hq⟩ := h
  refine ⟨hnf, ?_, hq⟩
  intro e he
  simp only [fire_response] at he
  obtain ⟨a, ha, rfl⟩ := List.mem_map.mp he
  refine ⟨(hes a ha).1, fun _ => ?_⟩
  show floor_ok s.num_floors 0
  unfold floor_ok
  omega

theorem initial_in_range (nf nr iv : Int) (h : 1 ≤ nf) :
    in_range (initial nf nr iv).st := by
  refine ⟨h, ?_, ?_⟩
  · intro e he
    simp only [initial] at he
    rw [List.eq_of_mem_replicate he]
    refine ⟨?_, fun hx => by simp at hx⟩
    show floor_ok nf 0
    unfold floor_ok
    omega
  · intro r hr
    simp [initial] at hr

@[simp] theorem dispatch_out_of_bounds (s : State) :
    (dispatch s).out_of_bounds = s.out_of_bounds := by
  unfold dispatch; split <;> rfl

@[simp] theorem move_phase_out_of_bounds (s : State) :
    (move_phase s).out_of_bounds = s.out_of_bounds := rfl

@[simp] theorem repair_phase_out_of_bounds (s : State) :
    (repair_phase s).out_of_bounds = s.out_of_bounds := by
  unfold repair_phase handle_repair; split
  · rfl
  · split <;> rfl

@[simp] theorem breakdown_out_of_bounds (s : State) (r1 r2 r3 rr : Nat) :
    (breakdown s r1 r2 r3 rr).out_of_bounds = s.out_of_bounds := by
  unfold breakdown; simp only []; split <;> rfl

/-- The dispatch block only removes requests. -/
theorem dispatch_queue_length_le (s : State) :
    (dispatch s).request_queue.length ≤ s.request_queue.length := by
  unfold dispatch
  split
  · exact le_refl _
  · exact dispatch_loop_preserves s.num_floors
      (fun _ q => q.length ≤ s.request_queue.length)
      (fun _ q i _ _ _ _ _ _ _ h => le_trans (List.length_eraseIdx_le q i) h)
      s.request_queue.length s.elevators s.request_queue 0 (by omega) (le_refl _)

/-- As long as every store into `request_queue` was inside the array, the queue
holds at most `MAX_REQUESTS` requests. -/
theorem tick_within_capacity (s : State) (d : Draws)
    (h : s.out_of_bounds = false → s.request_queue.length ≤ MAX_REQUESTS) :
    (tick s d).out_of_bounds = false →
      (tick s d).request_queue.length ≤ MAX_REQUESTS := by
  intro hflag
  have hflag' : (arrival s d).out_of_bounds = false := by
    simpa [tick] using hflag
  have hlen : (tick s d).request_queue.length
      ≤ (arrival s d).request_queue.length := by
    simp only [tick, repair_phase_request_queue, move_phase_request_queue]
    exact dispatch_queue_length_le _
  refine le_trans hlen ?_
  unfold arrival at hflag' ⊢
  split
  · rename_i hgo
    rw [if_pos hgo] at hflag'
    simp only [Bool.or_eq_false_iff, decide_eq_false_iff_not, not_le] at hflag'
    simp only [List.length_append, List.length_singleton]
    omega
  · rename_i hgo
    rw [if_neg hgo] at hflag'
    exact h hflag'

/-- The range invariant while the model follows the program: with at least one
floor, in every state reachable from the initial fleet by ticks, breakdown
events and fire events in which no store has left `request_queue`, the queue
holds at most `MAX_REQUESTS` requests and every elevator's `current_floor` lies
in `[0, num_floors - 1]`.  The requests generated by the arrival step are
`rand() % num_floors`, hence between floors of the building. -/
theorem current_floor_in_building (num_floors num_requests interval : Int)
    (hfloors : 1 ≤ num_floors) (m : Sim)
    (hm : Reachable num_floors num_requests interval m)
    (hmem : m.st.out_of_bounds = false) :
    m.st.queue_size ≤ MAX_REQUESTS ∧
    ∀ e ∈ m.st.elevators, 0 ≤ e.current_floor ∧ e.current_floor ≤ num_floors - 1 := by
  have hcap : m.st.out_of_bounds = false → m.st.request_queue.length ≤ MAX_REQUESTS :=
    reachable_invariant
      (fun s => s.out_of_bounds = false → s.request_queue.length ≤ MAX_REQUESTS)
      num_floors num_requests interval
      (fun _ => Nat.zero_le _)
      tick_within_capacity
      (fun s r1 r2 r3 rr h => by simpa using h)
      (fun s h => h)
      m hm
  have hinv : in_range m.st ∧ m.st.num_floors = num_floors :=
    reachable_invariant (fun s => in_range s ∧ s.num_floors = num_floors)
      num_floors num_requests interval
      ⟨initial_in_range _ _ _ hfloors, rfl⟩
      (fun s d h => ⟨tick_in_range s d h.1, by simpa using h.2⟩)
      (fun s r1 r2 r3 rr h => ⟨breakdown_in_range s r1 r2 r3 rr h.1, by simpa using h.2⟩)
      (fun s h => ⟨fire_response_in_range s h.1, h.2⟩)
      m hm
  refine ⟨hcap hmem, ?_⟩
  intro e he
  have := (hinv.1.2.1 e he).1
  rw [hinv.2] at this
  unfold floor_ok at this
  omega

/-- The range invariant on a run of the ten-floor building: a request from
floor 5 to floor 9, four more iterations, a breakdown and a fire alarm. -/
theorem current_floor_in_building_witness :
    (1 : Int) ≤ 10 ∧
    (run (initial 10 1000 2)
        [Event.tick ⟨0, 5, 9⟩, Event.tick ⟨1, 0, 0⟩, Event.tick ⟨1, 0, 0⟩,
         Event.breakdown 1 0 0 7, Event.tick ⟨1, 0, 0⟩, Event.fire,
         Event.tick ⟨1, 0, 0⟩]).st.out_of_bounds = false ∧
    ∀ e ∈ (run (initial 10 1000 2)
        [Event.tick ⟨0, 5, 9⟩, Event.tick ⟨1, 0, 0⟩, Event.tick ⟨1, 0, 0⟩,
         Event.breakdown 1 0 0 7, Event.tick ⟨1, 0, 0⟩, Event.fire,
         Event.tick ⟨1, 0, 0⟩]).st.elevators,
      0 ≤ e.current_floor ∧ e.current_floor ≤ 10 - 1 :=
  ⟨by decide, by decide,
    (current_floor_in_building 10 1000 2 (by decide) _ ⟨_, rfl⟩ (by decide)).2⟩

set_option maxRecDepth 100000 in
/-- C1 is lost with the first store outside `request_queue`.  With 1000 floors
and a request from floor 0 to floor 999 generated in each of 103 iterations, no
store has left the array and the cabins are at floors 103, 102 and 101.
Iteration 104 generates a request from floor 101 to floor 999: every request
generated so far lies between floors of the building, the loop is running, and
this request is stored at index 100 of the 100 cells of `request_queue`, so that
the globals placed behind the array are overwritten and the floors of the cabins
are no longer bounded by what the program does next. -/
theorem out_of_bounds_store_in_range_run :
    Reachable 1000 1000 2 (run (initial 1000 1000 2) stray_events) ∧
    ((run (initial 1000 1000 2) (overflow_events 103)).st.out_of_bounds = false ∧
      (run (initial 1000 1000 2) (overflow_events 103)).st.elevators.map
        (fun e => e.current_floor) = [103, 102, 101]) ∧
    ((run (initial 1000 1000 2) stray_events).phase = Phase.running ∧
      (run (initial 1000 1000 2) stray_events).st.out_of_bounds = true ∧
      (∀ r ∈ (run (initial 1000 1000 2) stray_events).st.request_queue,
        (0 ≤ r.start_floor ∧ r.start_floor ≤ 1000 - 1) ∧
        (0 ≤ r.target_floor ∧ r.target_floor ≤ 1000 - 1)) ∧
      (run (initial 1000 1000 2) stray_events).st.request_queue.getLast?
        = some { start_floor := 101, target_floor := 999 }) :=
  ⟨⟨stray_events, rfl⟩, by decide!, by decide!⟩

/-! ## C3 and C4: what the dispatch scan does to the fleet and to the queue -/

theorem matched_cons_hit (c : ScanRecord) (tr : List ScanRecord) (h : c.nearest ≠ -1) :
    matched (c :: tr) = c :: matched tr := by
  simp [matched, h]

theorem matched_cons_miss (c : ScanRecord) (tr : List ScanRecord) (h : c.nearest = -1) :
    matched (c :: tr) = matched tr := by
  simp [matched, h]

theorem unmatched_cons_hit (c : ScanRecord) (tr : List ScanRecord) (h : c.nearest ≠ -1) :
    unmatched (c :: tr) = unmatched tr := by
  simp [unmatched, h]

theorem unmatched_cons_miss (c : ScanRecord) (tr : List ScanRecord) (h : c.nearest = -1) :
    unmatched (c :: tr) = c :: unmatched tr := by
  simp [unmatched, h]

/-- Every match of the loop started on the fleet `es` picks an elevator that is
idle and in service in `es`, and no two matches pick the same elevator. -/
theorem dispatch_trace_distinct (nf : Int) :
    ∀ (fuel : Nat) (es : List Elevator) (q : List Request) (i : Nat),
      q.length ≤ i + fuel →
      (∀ c ∈ matched (dispatch_trace nf fuel es q i),
        ∃ (k : Nat) (e : Elevator), c.nearest = (k : Int) ∧ es[k]? = some e ∧
          e.idle = true ∧ e.broken = false) ∧
      ((matched (dispatch_trace nf fuel es q i)).map (fun c => c.nearest)).Nodup := by
  apply dispatch_induction nf
    (fun fuel es q i =>
      (∀ c ∈ matched (dispatch_trace nf fuel es q i),
        ∃ (k : Nat) (e : Elevator), c.nearest = (k : Int) ∧ es[k]? = some e ∧
          e.idle = true ∧ e.broken = false) ∧
      ((matched (dispatch_trace nf fuel es q i)).map (fun c => c.nearest)).Nodup)
  · intro fuel es q i h
    rw [dispatch_trace_end nf fuel es q i h]
    simp [matched]
  · intro fuel es q i r k e hr hk he hidle hbroken ih
    obtain ⟨ih1, ih2⟩ := ih
    rw [dispatch_trace_match nf fuel es q i k r hr hk,
      matched_cons_hit _ _ (by simp)]
    have hklen := lt_length_of_getElem? he
    -- a later match is in service and idle after the assignment, so it is not `k`
    have later : ∀ c ∈ matched (dispatch_trace nf fuel (assign es k r.target_floor)
        (q.eraseIdx i) i),
        ∃ (k' : Nat) (e' : Elevator), c.nearest = (k' : Int) ∧ k' ≠ k ∧
          es[k']? = some e' ∧ e'.idle = true ∧ e'.broken = false := by
      intro c hc
      obtain ⟨k', e', h1, h2, h3, h4⟩ := ih1 c hc
      rw [assign_of_getElem? he, List.getElem?_set] at h2
      by_cases hkk : k = k'
      · rw [if_pos hkk, if_pos hklen] at h2
        have := Option.some.inj h2
        subst this
        simp at h3
      · rw [if_neg hkk] at h2
        exact ⟨k', e', h1, fun h => hkk h.symm, h2, h3, h4⟩
    constructor
    · intro c hc
      rcases List.mem_cons.mp hc with rfl | hc
      · exact ⟨k, e, rfl, he, hidle, hbroken⟩
      · obtain ⟨k', e', h1, _, h3, h4, h5⟩ := later c hc
        exact ⟨k', e', h1, h3, h4, h5⟩
    · rw [List.map_cons, List.nodup_cons]
      refine ⟨?_, ih2⟩
      intro hmem
      obtain ⟨c, hc, hck⟩ := List.mem_map.mp hmem
      obtain ⟨k', _, h1, hne, _⟩ := later c hc
      simp only [] at hck
      omega
  · intro fuel es q i r hr hk ih
    rw [dispatch_trace_skip nf fuel es q i r hr hk, matched_cons_miss _ _ rfl]
    exact ih

/-- The trace reads the cells from `i` on, each once and in order, and the loop
leaves the cells before `i` followed by the requests of the iterations that
found no elevator. -/
theorem dispatch_trace_queue (nf : Int) :
    ∀ (fuel : Nat) (es : List Elevator) (q : List Request) (i : Nat),
      q.length ≤ i + fuel →
      (dispatch_trace nf fuel es q i).map (fun c => c.request) = q.drop i ∧
      (dispatch_loop nf fuel es q i).2
        = q.take i ++ (unmatched (dispatch_trace nf fuel es q i)).map
            (fun c => c.request) := by
  apply dispatch_induction nf
    (fun fuel es q i =>
      (dispatch_trace nf fuel es q i).map (fun c => c.request) = q.drop i ∧
      (dispatch_loop nf fuel es q i).2
        = q.take i ++ (unmatched (dispatch_trace nf fuel es q i)).map
            (fun c => c.request))
  · intro fuel es q i h
    rw [dispatch_trace_end nf fuel es q i h, dispatch_loop_end nf fuel es q i h]
    simp [unmatched, List.drop_eq_nil_of_le h, List.take_of_length_le h]
  · intro fuel es q i r k e hr hk _ _ _ ih
    obtain ⟨ih1, ih2⟩ := ih
    have hi := lt_length_of_getElem? hr
    have hqi : q[i] = r := by
      rw [List.getElem?_eq_getElem hi] at hr
      exact Option.some.inj hr
    have hdrop : (q.eraseIdx i).drop i = q.drop (i + 1) := by
      rw [List.eraseIdx_eq_take_drop_succ, List.drop_append_of_le_length (by simp; omega)]
      simp [List.drop_take, Nat.min_eq_left (le_of_lt hi)]
    have htake : (q.eraseIdx i).take i = q.take i := by
      rw [List.eraseIdx_eq_take_drop_succ, List.take_append_of_le_length (by simp; omega)]
      simp [List.take_take]
    rw [dispatch_trace_match nf fuel es q i k r hr hk,
      dispatch_loop_match nf fuel es q i k r hr hk,
      unmatched_cons_hit _ _ (by simp), List.map_cons, ih1, ih2, hdrop, htake]
    refine ⟨?_, rfl⟩
    rw [← hqi]
    exact (List.drop_eq_getElem_cons hi).symm
  · intro fuel es q i r hr hk ih
    obtain ⟨ih1, ih2⟩ := ih
    have hi := lt_length_of_getElem? hr
    have hqi : q[i] = r := by
      rw [List.getElem?_eq_getElem hi] at hr
      exact Option.some.inj hr
    rw [dispatch_trace_skip nf fuel es q i r hr hk,
      dispatch_loop_skip nf fuel es q i r hr hk,
      unmatched_cons_miss _ _ rfl, List.map_cons, List.map_cons, ih1, ih2]
    refine ⟨?_, ?_⟩
    · rw [← hqi]
      exact (List.drop_eq_getElem_cons hi).symm
    · rw [← hqi, List.take_succ, List.getElem?_eq_getElem hi, Option.toList,
        List.append_assoc]
      rfl

theorem matched_eq_filter_not (tr : List ScanRecord) :
    matched tr = tr.filter (fun c => !decide (c.nearest = -1)) := by
  unfold matched
  congr 1
  funext c
  simp

/-- The scanned requests split into the ones left in the queue and the ones
matched. -/
theorem unmatched_append_matched_perm (tr : List ScanRecord) :
    List.Perm (tr.map (fun c => c.request))
      ((unmatched tr).map (fun c => c.request) ++
        (matched tr).map (fun c => c.request)) := by
  rw [← List.map_append, matched_eq_filter_not]
  exact (List.filter_append_perm _ tr).symm.map _

theorem dispatch_request_queue (s : State) (h : s.fire_mode = false) :
    (dispatch s).request_queue
      = (dispatch_loop s.num_floors s.request_queue.length s.elevators
          s.request_queue 0).2 := by
  simp [dispatch, h]

theorem dispatch_record_eq (s : State) (h : s.fire_mode = false) :
    dispatch_record s
      = dispatch_trace s.num_floors s.request_queue.length s.elevators
          s.request_queue 0 := by
  simp [dispatch_record, h]

/-- C3: in the dispatch scan of one tick the requests removed from the queue
are the matched ones, the elevator indices they are matched to are pairwise
distinct, and each of them is the index of an elevator that was idle and not
broken at the start of the scan. -/
theorem dispatch_assigns_each_elevator_once (s : State) :
    List.Perm s.request_queue
      ((dispatch s).request_queue ++
        (matched (dispatch_record s)).map (fun c => c.request)) ∧
    ((matched (dispatch_record s)).map (fun c => c.nearest)).Nodup ∧
    ∀ c ∈ matched (dispatch_record s),
      ∃ (k : Nat) (e : Elevator), c.nearest = (k : Int) ∧
        s.elevators[k]? = some e ∧ e.idle = true ∧ e.broken = false := by
  cases hf : s.fire_mode with
  | true =>
    have h1 : dispatch s = s := by simp [dispatch, hf]
    have h2 : dispatch_record s = [] := by simp [dispatch_record, hf]
    rw [h1, h2]
    simp [matched]
  | false =>
    rw [dispatch_request_queue s hf, dispatch_record_eq s hf]
    obtain ⟨hsel, hnodup⟩ := dispatch_trace_distinct s.num_floors
      s.request_queue.length s.elevators s.request_queue 0 (by omega)
    obtain ⟨hscan, hleft⟩ := dispatch_trace_queue s.num_floors
      s.request_queue.length s.elevators s.request_queue 0 (by omega)
    refine ⟨?_, hnodup, hsel⟩
    rw [hleft, List.take_zero, List.nil_append]
    rw [List.drop_zero] at hscan
    have := unmatched_append_matched_perm (dispatch_trace s.num_floors
      s.request_queue.length s.elevators s.request_queue 0)
    rw [hscan] at this
    exact this

/-- With the floors in range and `num_floors + 1` an `int`, an iteration of the
scan leaves its request in the queue only when the fleet it sees has no idle
elevator in service. -/
theorem dispatch_trace_unmatched (nf : Int) (hnf : nf < INT_MAX) :
    ∀ (fuel : Nat) (es : List Elevator) (q : List Request) (i : Nat),
      q.length ≤ i + fuel →
      (∀ e ∈ es, floor_ok nf e.current_floor) →
      (∀ r ∈ q, floor_ok nf r.start_floor) →
      ∀ c ∈ dispatch_trace nf fuel es q i,
        c.nearest = find_nearest_idle_elevator nf c.fleet c.request.start_floor ∧
        (c.nearest = -1 → ∀ e ∈ c.fleet, ¬ (e.idle = true ∧ e.broken = false)) := by
  apply dispatch_induction nf
    (fun fuel es q i =>
      (∀ e ∈ es, floor_ok nf e.current_floor) →
      (∀ r ∈ q, floor_ok nf r.start_floor) →
      ∀ c ∈ dispatch_trace nf fuel es q i,
        c.nearest = find_nearest_idle_elevator nf c.fleet c.request.start_floor ∧
        (c.nearest = -1 → ∀ e ∈ c.fleet, ¬ (e.idle = true ∧ e.broken = false)))
  · intro fuel es q i h _ _ c hc
    rw [dispatch_trace_end nf fuel es q i h] at hc
    simp at hc
  · intro fuel es q i r k e hr hk he _ _ ih hes hq c hc
    rw [dispatch_trace_match nf fuel es q i k r hr hk] at hc
    rcases List.mem_cons.mp hc with rfl | hc
    · exact ⟨hk.symm, fun h => by simp at h⟩
    · refine ih ?_ (fun x hx => hq x (List.mem_of_mem_eraseIdx hx)) c hc
      intro x hx
      rw [assign_of_getElem? he] at hx
      rcases List.mem_or_eq_of_mem_set hx with hx | rfl
      · exact hes x hx
      · exact hes e (List.getElem?_mem he)
  · intro fuel es q i r hr hk ih hes hq c hc
    rw [dispatch_trace_skip nf fuel es q i r hr hk] at hc
    rcases List.mem_cons.mp hc with rfl | hc
    · refine ⟨hk.symm, fun _ => ?_⟩
      rcases find_nearest_cases nf es r.start_floor hnf hes
          (hq r (List.getElem?_mem hr)) with
        ⟨_, hnone⟩ | ⟨j, _, _, hj, _⟩
      · exact hnone
      · rw [hk] at hj
        omega
    · exact ih hes hq c hc

/-- The dispatch scan below `INT_MAX` floors: with fire mode off, `num_floors + 1`
an `int` and the cabin floors and request start floors in
`[0, num_floors - 1]`, the scan reads every queued request once, in arrival
order; afterwards the queue holds exactly the requests that were not matched, in
their original order (so it is a subsequence of the old queue and, with the
matched ones, a rearrangement of it); and a request is left unmatched only if
the fleet had no idle, non-broken elevator when it was scanned. -/
theorem dispatch_keeps_unmatched_in_order (s : State)
    (hfire : s.fire_mode = false) (hnf : s.num_floors < INT_MAX)
    (hes : ∀ e ∈ s.elevators, floor_ok s.num_floors e.current_floor)
    (hq : ∀ r ∈ s.request_queue, floor_ok s.num_floors r.start_floor) :
    (dispatch_record s).map (fun c => c.request) = s.request_queue ∧
    (dispatch s).request_queue
      = (unmatched (dispatch_record s)).map (fun c => c.request) ∧
    List.Sublist (dispatch s).request_queue s.request_queue ∧
    List.Perm s.request_queue
      ((dispatch s).request_queue ++
        (matched (dispatch_record s)).map (fun c => c.request)) ∧
    ∀ c ∈ dispatch_record s,
      c.nearest = find_nearest_idle_elevator s.num_floors c.fleet c.request.start_floor ∧
      (c.nearest = -1 → ∀ e ∈ c.fleet, ¬ (e.idle = true ∧ e.broken = false)) := by
  rw [dispatch_request_queue s hfire, dispatch_record_eq s hfire]
  obtain ⟨hscan, hleft⟩ := dispatch_trace_queue s.num_floors
    s.request_queue.length s.elevators s.request_queue 0 (by omega)
  rw [List.take_zero, List.nil_append] at hleft
  rw [List.drop_zero] at hscan
  refine ⟨hscan, hleft, ?_, ?_, ?_⟩
  · rw [hleft]
    conv_rhs => rw [← hscan]
    exact (List.filter_sublist _).map _
  · have hperm := unmatched_append_matched_perm (dispatch_trace s.num_floors
      s.request_queue.length s.elevators s.request_queue 0)
    rw [hscan] at hperm
    rw [hleft]
    exact hperm
  · exact dispatch_trace_unmatched s.num_floors hnf s.request_queue.length s.elevators
      s.request_queue 0 (by omega) hes hq

/-- The dispatch scan on the sample state: the two idle cabins take the first
two requests and the third request is all that is left in the queue. -/
theorem dispatch_keeps_unmatched_in_order_witness :
    sample_state.fire_mode = false ∧ sample_state.num_floors < INT_MAX ∧
    (∀ e ∈ sample_state.elevators, floor_ok sample_state.num_floors e.current_floor) ∧
    (∀ r ∈ sample_state.request_queue, floor_ok sample_state.num_floors r.start_floor) ∧
    (dispatch sample_state).request_queue = [{ start_floor := 0, target_floor := 6 }] ∧
    (dispatch sample_state).request_queue
      = (unmatched (dispatch_record sample_state)).map (fun c => c.request) :=
  ⟨rfl, by decide, by simp [sample_state, sample_fleet, floor_ok],
    by simp [sample_state, floor_ok], by decide,
    (dispatch_keeps_unmatched_in_order sample_state rfl (by decide)
      (by simp [sample_state, sample_fleet, floor_ok])
      (by simp [sample_state, floor_ok])).2.1⟩

/-- C4 fails at `num_floors = 2147483647`: in the state `main` is in after the
first arrival, a request from floor 5 to floor 9, fire mode is off, the three
cabins are idle and in service at floor 0 and every floor is a floor of the
building; the dispatch scan reads the request, gets `-1` from
`find_nearest_idle_elevator` and leaves the request in the queue and the fleet
as it was. -/
theorem dispatch_leaves_request_beside_idle_cabins :
    int_max_state.fire_mode = false ∧
    int_max_state.num_floors = 2147483647 ∧
    int_max_state.request_queue = [{ start_floor := 5, target_floor := 9 }] ∧
    (∀ e ∈ int_max_state.elevators,
      (0 ≤ e.current_floor ∧ e.current_floor ≤ 2147483647 - 1) ∧
      e.idle = true ∧ e.broken = false) ∧
    int_max_state.elevators.length = 3 ∧
    dispatch_record int_max_state
      = [{ request := { start_floor := 5, target_floor := 9 }
           fleet := int_max_state.elevators
           nearest := -1 }] ∧
    (dispatch int_max_state).request_queue
      = [{ start_floor := 5, target_floor := 9 }] ∧
    (dispatch int_max_state).elevators = int_max_state.elevators :=
  ⟨by decide, by decide, by decide, by decide, by decide, by decide, by decide,
    by decide⟩

/-! ## C5: from assignment to arrival -/

theorem move_elevator_broken (e : Elevator) :
    (move_elevator e).broken = e.broken := by
  unfold move_elevator
  split
  · rfl
  · split
    · rfl
    · split <;> rfl

theorem run_ticks_fire_mode (ds : List Draws) :
    ∀ s : State, (run_ticks s ds).fire_mode = s.fire_mode := by
  induction ds with
  | nil => intro s; rfl
  | cons d ds ih =>
    intro s
    show (run_ticks (tick s d) ds).fire_mode = s.fire_mode
    rw [ih, tick_fire_mode]

theorem move_elevator_target_floor (e : Elevator) :
    (move_elevator e).target_floor = e.target_floor := by
  unfold move_elevator
  split
  · rfl
  · split
    · rfl
    · split <;> rfl

theorem move_elevator_repair_intervals (e : Elevator) :
    (move_elevator e).repair_intervals = e.repair_intervals := by
  unfold move_elevator
  split
  · rfl
  · split
    · rfl
    · split <;> rfl

theorem tick_in_fire_mode (s : State) (d : Draws) (h : s.fire_mode = true) :
    tick s d = { s with elevators := move_all s.elevators } := by
  have ha : arrival s d = s := by simp [arrival, h]
  have hd : dispatch s = s := by simp [dispatch, h]
  have hr : repair_phase (move_phase s) = move_phase s := by
    unfold repair_phase
    rw [if_pos (by simpa using h)]
  unfold tick
  rw [ha, hd, hr]
  rfl

/-- C7: in fire mode one loop iteration matches no request: the dispatch scan
runs no iteration, the queue (hence its length) and `active_requests` are
unchanged and every elevator keeps its `target_floor`; and it performs no repair
step: every `repair_intervals` and `broken` flag, `repair_requested` and
`repair_time` are unchanged. -/
theorem fire_mode_suspends_dispatch_and_repair (s : State) (d : Draws)
    (h : s.fire_mode = true) :
    dispatch_record (arrival s d) = [] ∧
    (tick s d).request_queue = s.request_queue ∧
    (tick s d).queue_size = s.queue_size ∧
    (tick s d).active_requests = s.active_requests ∧
    (tick s d).elevators.map (fun e => e.target_floor)
      = s.elevators.map (fun e => e.target_floor) ∧
    (tick s d).elevators.map (fun e => e.repair_intervals)
      = s.elevators.map (fun e => e.repair_intervals) ∧
    (tick s d).elevators.map (fun e => e.broken)
      = s.elevators.map (fun e => e.broken) ∧
    (tick s d).repair_requested = s.repair_requested ∧
    (tick s d).repair_time = s.repair_time := by
  have ha : arrival s d = s := by simp [arrival, h]
  rw [tick_in_fire_mode s d h, ha]
  refine ⟨by simp [dispatch_record, h], rfl, rfl, rfl, ?_, ?_, ?_, rfl, rfl⟩
  · simp only [move_all, List.map_map]
    apply List.map_congr_left
    intro e _
    simp only [Function.comp]
    split
    · exact move_elevator_target_floor e
    · rfl
  · simp only [move_all, List.map_map]
    apply List.map_congr_left
    intro e _
    simp only [Function.comp]
    split
    · exact move_elevator_repair_intervals e
    · rfl
  · simp only [move_all, List.map_map]
    apply List.map_congr_left
    intro e _
    simp only [Function.comp]
    split
    · exact move_elevator_broken e
    · rfl

/-- C7 on the sample state after a fire alarm: the three queued requests stay
queued and no cabin changes its target or its repair countdown. -/
theorem fire_mode_suspends_dispatch_and_repair_witness :
    (fire_response sample_state).fire_mode = true ∧
    (dispatch_record (arrival (fire_response sample_state) ⟨0, 1, 2⟩) = [] ∧
    (tick (fire_response sample_state) ⟨0, 1, 2⟩).request_queue
      = (fire_response sample_state).request_queue ∧
    (tick (fire_response sample_state) ⟨0, 1, 2⟩).queue_size
      = (fire_response sample_state).queue_size ∧
    (tick (fire_response sample_state) ⟨0, 1, 2⟩).active_requests
      = (fire_response sample_state).active_requests ∧
    (tick (fire_response sample_state) ⟨0, 1, 2⟩).elevators.map (fun e => e.target_floor)
      = (fire_response sample_state).elevators.map (fun e => e.target_floor) ∧
    (tick (fire_response sample_state) ⟨0, 1, 2⟩).elevators.map
        (fun e => e.repair_intervals)
      = (fire_response sample_state).elevators.map (fun e => e.repair_intervals) ∧
    (tick (fire_response sample_state) ⟨0, 1, 2⟩).elevators.map (fun e => e.broken)
      = (fire_response sample_state).elevators.map (fun e => e.broken) ∧
    (tick (fire_response sample_state) ⟨0, 1, 2⟩).repair_requested
      = (fire_response sample_state).repair_requested ∧
    (tick (fire_response sample_state) ⟨0, 1, 2⟩).repair_time
      = (fire_response sample_state).repair_time) :=
  ⟨rfl, fire_mode_suspends_dispatch_and_repair (fire_response sample_state) ⟨0, 1, 2⟩ rfl⟩

/-! ## C8: the queue and its capacity -/

set_option maxRecDepth 100000 in
/-- C8: the arrival block stores into `request_queue[queue_size++]` without
comparing `queue_size` with `MAX_REQUESTS`.  With 1000 floors and a request to
floor 999 generated in every iteration, after 103 iterations the loop is running
and the queue holds `MAX_REQUESTS` requests, every store so far inside the
array; the arrival of iteration 104 is stored all the same, at index 100 of an
array of 100 cells (`out_of_bounds`), and `queue_size++` makes 101 of 100. -/
theorem queue_size_exceeds_capacity :
    Reachable 1000 1000 2 (run (initial 1000 1000 2) (overflow_events 104)) ∧
    ((run (initial 1000 1000 2) (overflow_events 103)).phase = Phase.running ∧
      (run (initial 1000 1000 2) (overflow_events 103)).st.queue_size = MAX_REQUESTS ∧
      (run (initial 1000 1000 2) (overflow_events 103)).st.out_of_bounds = false) ∧
    ((run (initial 1000 1000 2) (overflow_events 104)).phase = Phase.running ∧
      (run (initial 1000 1000 2) (overflow_events 104)).st.queue_size
        = MAX_REQUESTS + 1 ∧
      (run (initial 1000 1000 2) (overflow_events 104)).st.out_of_bounds = true) :=
  ⟨⟨overflow_events 104, rfl⟩, by decide!, by decide!⟩

/-! ## C9: the fire-mode exit -/

/-- `all_elevators_at_ground` skips broken elevators: it succeeds exactly when
every elevator that is not broken is at floor 0. -/
theorem all_elevators_at_ground_iff (es : List Elevator) :
    all_elevators_at_ground es = true ↔
      ∀ e ∈ es, e.broken = false → e.current_floor = 0 := by
  induction es with
  | nil => simp [all_elevators_at_ground]
  | cons a rest ih =>
    unfold all_elevators_at_ground
    by_cases h0 : a.current_floor = 0
    · simp [h0, ih]
    · cases hb : a.broken
      · simp [h0, hb]
      · simp [h0, hb, ih]

/-- Control is past the `break` only when the `break` test succeeded on the
state in which the loop was left. -/
theorem fire_done_invariant (m : Sim) (ev : Event)
    (h : m.phase = Phase.fire_done → fire_exit m.st = true) :
    (step m ev).phase = Phase.fire_done → fire_exit (step m ev).st = true := by
  unfold step
  cases hp : m.phase
  · cases ev with
    | tick d =>
      simp only []
      split
      · split
        · rename_i hexit
          intro _
          exact hexit
        · intro hx
          exact Phase.noConfusion hx
      · intro hx
        exact Phase.noConfusion hx
    | breakdown r1 r2 r3 rr => intro hx; exact Phase.noConfusion hx
    | fire => intro hx; exact Phase.noConfusion hx
  · simp only []
    intro _
    exact h hp
  · simp only []
    intro hx
    rw [hp] at hx
    exact Phase.noConfusion hx

/-- C9, as the code has it: in every run (ticks, breakdown events and fire
events in any order), when the loop is left through the fire-mode exit, fire
mode is on and every elevator that is not broken is at floor 0; and for every
fleet, `all_elevators_at_ground` succeeds if and only if every elevator that is
not broken is at floor 0. -/
theorem fire_exit_non_broken_at_ground (num_floors num_requests interval : Int)
    (m : Sim) (hm : Reachable num_floors num_requests interval m)
    (hp : m.phase = Phase.fire_done) :
    m.st.fire_mode = true ∧
    (∀ e ∈ m.st.elevators, e.broken = false → e.current_floor = 0) ∧
    (∀ es : List Elevator, all_elevators_at_ground es = true ↔
      ∀ e ∈ es, e.broken = false → e.current_floor = 0) := by
  obtain ⟨evs, rfl⟩ := hm
  have hexit := run_invariant
    (fun m => m.phase = Phase.fire_done → fire_exit m.st = true)
    fire_done_invariant evs (initial num_floors num_requests interval)
    (fun hx => Phase.noConfusion hx) hp
  unfold fire_exit at hexit
  rw [Bool.and_eq_true] at hexit
  exact ⟨hexit.1, (all_elevators_at_ground_iff _).mp hexit.2, all_elevators_at_ground_iff⟩

/-- C9 as amended, on the run that strands the first cabin: the loop is left
through the fire-mode exit and the two cabins in service are at floor 0. -/
theorem fire_exit_non_broken_at_ground_witness :
    Reachable 10 1000 2 (run (initial 10 1000 2) stranded_events) ∧
    (run (initial 10 1000 2) stranded_events).phase = Phase.fire_done ∧
    ∀ e ∈ (run (initial 10 1000 2) stranded_events).st.elevators,
      e.broken = false → e.current_floor = 0 :=
  ⟨⟨stranded_events, rfl⟩, by decide,
    (fire_exit_non_broken_at_ground 10 1000 2 _ ⟨stranded_events, rfl⟩ (by decide)).2.1⟩

/-- C9 as stated fails: in the default configuration a cabin that left the
ground floor, then the fire alarm, then a breakdown of that cabin end the loop
through the fire-mode exit with the cabin at floor 1, and
`all_elevators_at_ground` succeeds on that fleet. -/
theorem fire_exit_with_cabin_above_ground :
    Reachable 10 1000 2 (run (initial 10 1000 2) stranded_events) ∧
    (run (initial 10 1000 2) stranded_events).phase = Phase.fire_done ∧
    (run (initial 10 1000 2) stranded_events).st.elevators.map
      (fun e => (e.current_floor, e.broken)) = [(1, true), (0, false), (0, false)] ∧
    all_elevators_at_ground (run (initial 10 1000 2) stranded_events).st.elevators = true ∧
    ¬ (∀ e ∈ (run (initial 10 1000 2) stranded_events).st.elevators,
        e.current_floor = 0) :=
  ⟨⟨stranded_events, rfl⟩, by decide, by decide, by decide, by decide⟩

/-! ## C10: idle cabins and their target -/

/-- C11: for every simulation state, applying the fire override twice gives the
same state as applying it once; the result has `fire_mode` set, the same number
of elevators, and every elevator with `target_floor = 0`, `idle` cleared and
`broken` cleared, its `current_floor` and `repair_intervals` unchanged. -/
theorem fire_response_idempotent (s : State) :
    fire_response (fire_response s) = fire_response s ∧
    (fire_response s).fire_mode = true ∧
    (fire_response s).elevators.length = s.elevators.length ∧
    ∀ (k : Nat) (e : Elevator), s.elevators[k]? = some e →
      ∃ e' : Elevator, (fire_response s).elevators[k]? = some e' ∧
        e'.target_floor = 0 ∧ e'.idle = false ∧ e'.broken = false ∧
        e'.current_floor = e.current_floor ∧
        e'.repair_intervals = e.repair_intervals := by
  refine ⟨?_, rfl, ?_, ?_⟩
  · unfold fire_response
    simp only [List.map_map]
    rfl
  · simp only [fire_response, List.length_map]
  · intro k e he
    refine ⟨{ e with target_floor := 0, idle := false, broken := false }, ?_,
      rfl, rfl, rfl, rfl, rfl⟩
    simp only [fire_response, List.getElem?_map, he, Option.map_some']

end ElevatorSim
